import Mathlib

/-!
# Verification of the RFC 822 date-time parser (`src/rfc822.rs`)

This development shallowly embeds the date-time parser of `src/rfc822.rs`
and the parts of its environment it uses:

* the backtracking text scanner `Rfc5322Parser` (the file `rfc5322.rs` is
  not part of the sources given, so the scanner is modelled from the
  specification, §4.1);
* the error type `ParsingError` (from `results.rs`, also absent; it is a
  value carrying a human-readable message, modelled as `String`);
* the `chrono` construction `FixedOffset::east(..).ymd(..).and_hms(..)`,
  whose members panic on out-of-range values; a panic is modelled as the
  `none` case of an `Option` result.

Strings are handled as `List Char`, the cursor by the list of remaining
characters, and a saved cursor position by the corresponding remaining
suffix (the input is immutable, so saving the integer offset and saving
the suffix it denotes are observationally identical).
-/

namespace RustEmail

/-- Whitespace as consumed between tokens (space, tab, CR, LF). -/
def isWsChar (c : Char) : Bool :=
  c = ' ' || c = '\t' || c = '\r' || c = '\n'

/-- Modelled from the spec: the character class at which a word token ends.
The spec (§4.1) describes `consume_word` loosely as a run of non-whitespace
characters, but the grammar callers and the tests in `src/rfc822.rs`
(e.g. `"10:01:59"` yielding the three tokens `10`, `01`, `59`, and `"Mon,"`
yielding `Mon`) require words to stop at RFC 5322 specials such as `:` and
`,`: a word is a run of *atom* characters (alphanumerics and the common
atext symbols, which include `+` and `-` so that `+0545` is one token). -/
def isAtext (c : Char) : Bool :=
  c.isAlpha || c.isDigit ||
    ['!', '#', '$', '%', '&', '*', '+', '-', '/', '=', '?', '^', '_', '~'].contains c

/-- Modelled from the spec (§4.1, missing `rfc5322.rs`): reading one word.
`wordSplit cs` returns the word starting at the cursor together with the
remaining text, or `none` when the cursor is at end-of-input or not at an
atom character (only whitespace or a special remains at the cursor). -/
def wordSplit (cs : List Char) : Option (List Char × List Char) :=
  match cs with
  | [] => none
  | c :: _ => if isAtext c then some (cs.takeWhile isAtext, cs.dropWhile isAtext) else none

/-- Scanner state: remaining input and the position (checkpoint) stack.
Modelled from the spec (§3, §4.1): the cursor is kept as the remaining
suffix of the immutable input, and each stack entry is the suffix that was
current when `push_position` ran. -/
structure Scanner where
  rem : List Char
  stack : List (List Char)
deriving DecidableEq, Repr

/-- Modelled from the spec: `push_position()` records the current cursor. -/
def push_position (sc : Scanner) : Scanner :=
  { sc with stack := sc.rem :: sc.stack }

/-- Modelled from the spec: `pop_position()` removes the most recently
pushed checkpoint and rolls the cursor back to it.  (Calling it on an empty
stack is a programming error in the source; the parser never does, and the
model then leaves the state unchanged.) -/
def pop_position (sc : Scanner) : Scanner :=
  match sc.stack with
  | [] => sc
  | r :: rest => { rem := r, stack := rest }

/-- Modelled from the spec: `consume_word(false)` on the scanner state
(quoted strings are never requested by the date parser). -/
def consume_word (sc : Scanner) : Option (List Char) × Scanner :=
  match wordSplit sc.rem with
  | none => (none, sc)
  | some (w, r) => (some w, { sc with rem := r })

/-- Modelled from the spec: `consume_linear_whitespace()` drops a maximal
(possibly empty) run of folding whitespace. -/
def consume_linear_whitespace (cs : List Char) : List Char :=
  cs.dropWhile isWsChar

/-- Decimal value of a digit run: `some` iff the run is non-empty and all
digits (the core of Rust's unsigned `from_str`). -/
def digitsVal (cs : List Char) : Option Nat :=
  if cs ≠ [] ∧ cs.all Char.isDigit then
    some (cs.foldl (fun a c => a * 10 + (c.toNat - 48)) 0)
  else none

/-- Rust `u32::from_str`: an optional leading `+`, then digits, value below
`2^32`. -/
def parseU32 (cs : List Char) : Option Nat :=
  let body := match cs with
    | '+' :: rest => rest
    | _ => cs
  match digitsVal body with
  | some n => if n < 2 ^ 32 then some n else none
  | none => none

/-- Rust `i32::from_str`: an optional leading sign, then digits, value in
the `i32` range. -/
def parseI32 (cs : List Char) : Option Int :=
  match cs with
  | '+' :: rest =>
    (digitsVal rest).bind fun n => if n ≤ 2 ^ 31 - 1 then some (n : Int) else none
  | '-' :: rest =>
    (digitsVal rest).bind fun n => if n ≤ 2 ^ 31 then some (-(n : Int)) else none
  | _ =>
    (digitsVal cs).bind fun n => if n ≤ 2 ^ 31 - 1 then some (n : Int) else none

/-- `Rfc822DateParser::consume_u32`: consume a word and parse it as `u32`;
the word is consumed even when the numeric parse then fails. -/
def consume_u32 (cs : List Char) : Option Nat × List Char :=
  match wordSplit cs with
  | none => (none, cs)
  | some (w, r) =>
    match parseU32 w with
    | some n => (some n, r)
    | none => (none, r)

/-- The static day-of-week table `DAYS_OF_WEEK` (lowercase). -/
def DAYS_OF_WEEK : List (List Char) :=
  ["mon".data, "tue".data, "wed".data, "thu".data, "fri".data, "sat".data, "sun".data]

/-- The static month table `MONTHS` (lowercase, in calendar order). -/
def MONTHS : List (List Char) :=
  ["jan".data, "feb".data, "mar".data, "apr".data, "may".data, "jun".data,
   "jul".data, "aug".data, "sep".data, "oct".data, "nov".data, "dec".data]

/-- The static timezone table `TZ_DATA`: zone abbreviation to signed offset
in seconds (a `HashMap` with unique keys, modelled as an association list). -/
def TZ_DATA : List (String × Int) :=
  [("Z", 0), ("UT", 0), ("GMT", 0),
   ("PST", -28800), ("PDT", -25200), ("MST", -25200), ("MDT", -21600),
   ("CST", -21600), ("CDT", -18000), ("EST", -18000), ("EDT", -14400)]

/-- `ParsingError` (from the absent `results.rs`): modelled from the spec
as its human-readable message. `ParsingResult t` is `Result<t, ParsingError>`. -/
abbrev ParsingResult (α : Type) := Except String α

/-- `Rfc822DateParser::consume_time`: hour, `:`, minute, then optional
`:`-prefixed seconds (defaulting to 0).  The second component is the
remaining input.  The `assert_char(':')` failure between hour and minute is
propagated; its message lives in the absent `rfc5322.rs` and is modelled
from the spec as a syntax error naming the expected character. -/
def consume_time (cs : List Char) : ParsingResult (Nat × Nat × Nat) × List Char :=
  match consume_u32 cs with
  | (none, r) => (.error "Failed to parse time: Expected hour, a number.", r)
  | (some hour, r1) =>
    match r1.head? with
    | some c =>
      if c = ':' then
        match consume_u32 r1.tail with
        | (none, r3) => (.error "Failed to parse time: Expected minute.", r3)
        | (some minute, r3) =>
          -- Seconds are optional, only parsed when the next separator is `:`.
          match r3.head? with
          | some c2 =>
            if c2 = ':' then
              match consume_u32 r3.tail with
              | (secOpt, r5) => (.ok (hour, minute, secOpt.getD 0), r5)
            else (.ok (hour, minute, 0), r3)
          | none => (.ok (hour, minute, 0), r3)
      else (.error "Expected character :", r1)
    | none => (.error "Expected character :", r1)

/-- Strip a single leading `+` (Rust `from_str` rejects it for `i32`...
the source strips it before the numeric attempt). -/
def stripPlus (w : List Char) : List Char :=
  match w with
  | '+' :: rest => rest
  | _ => w

/-- Rust `i32` two's-complement wrap-around: the value a 32-bit signed
arithmetic operation produces.  Each `i32` operation of the source either
yields its mathematical value (when that value is representable) or
overflows; on overflow a release build produces exactly `wrap32` of the
mathematical value, while a debug build panics — so wherever a theorem
needs the value of an operation that may overflow, it is stated on the
range where `wrap32` is the identity and both build modes agree. -/
def wrap32 (x : Int) : Int :=
  (x + 2 ^ 31) % 2 ^ 32 - 2 ^ 31

/-- `Rfc822DateParser::consume_timezone_offset`: read one word; strip one
leading `+`; try the stripped text as an `i32` and turn `±HHMM` digit
groups into seconds; otherwise look the stripped text up in `TZ_DATA`.
The offset arithmetic is `i32` arithmetic in the source (the function
returns `ParsingResult<i32>`): each of the two multiplications and the
addition wraps (`wrap32`) where its mathematical value leaves the `i32`
range, which happens for parsed values `i` with roughly
`|i| >= 59652400`. -/
def consume_timezone_offset (cs : List Char) : ParsingResult Int × List Char :=
  match wordSplit cs with
  | none => (.error "Expected timezone offset.", cs)
  | some (w, r) =>
    let s_slice := stripPlus w
    match parseI32 s_slice with
    | some i =>
      let offset_hours := Int.tdiv i 100
      let offset_mins := Int.tmod i 100
      (.ok (wrap32 (wrap32 (offset_hours * 3600) + wrap32 (offset_mins * 60))), r)
    | none =>
      match TZ_DATA.lookup (String.mk s_slice) with
      | some offset => (.ok offset, r)
      | none => (.error ("Invalid timezone: " ++ String.mk s_slice), r)

/-- `Rfc822DateParser::consume_month`: read one word, lowercase it, and
find it in `MONTHS` (1-based). -/
def consume_month (cs : List Char) : ParsingResult Nat × List Char :=
  match wordSplit cs with
  | none => (.error "Expected month.", cs)
  | some (w, r) =>
    let lower_month := w.map Char.toLower
    match MONTHS.findIdx? (· = lower_month) with
    | some i => (.ok (i + 1), r)
    | none => (.error ("Invalid month: " ++ String.mk lower_month), r)

/-- RFC 5322 §4.3 obsolete-year expansion, as in `consume_datetime`:
`0..=49` to the 2000s, `50..=999` plus 1900, the rest verbatim. -/
def yearExpand (i : Nat) : Nat :=
  if i ≤ 49 then i + 2000
  else if i ≤ 999 then i + 1900
  else i

/-- Rust `u32 as i32`: two's-complement reinterpretation. -/
def toI32 (n : Nat) : Int :=
  ((((n + 2 ^ 31) % 2 ^ 32 : Nat)) : Int) - 2 ^ 31

/-- A fixed-offset date-time value, as built by
`FixedOffset::east(off).ymd(y, m, d).and_hms(h, mi, s)`. -/
structure DateTime where
  year : Int
  month : Nat
  day : Nat
  hour : Nat
  minute : Nat
  second : Nat
  offset : Int
deriving DecidableEq, Repr

/-- Gregorian leap-year rule. -/
def isLeapYear (y : Int) : Bool :=
  y % 4 = 0 && (y % 100 ≠ 0 || y % 400 = 0)

/-- Length of a month. -/
def daysInMonth (y : Int) (m : Nat) : Nat :=
  if m = 2 then (if isLeapYear y then 29 else 28)
  else if m = 4 || m = 6 || m = 9 || m = 11 then 30
  else 31

/-- `chrono`'s `FixedOffset::east(off).ymd(y, m, d).and_hms(h, mi, s)`:
these deprecated constructors panic (terminate abnormally) when the offset
is out of range, the calendar date does not exist, or the time of day is
out of range; a panic is modelled as `none`.  (`chrono` also bounds the
year magnitude; that bound is far beyond anything exercised here.) -/
def fixed_east_ymd_hms (off : Int) (y : Int) (m d h mi s : Nat) : Option DateTime :=
  if -86400 < off ∧ off < 86400 ∧
      1 ≤ m ∧ m ≤ 12 ∧ 1 ≤ d ∧ d ≤ daysInMonth y m ∧
      h ≤ 23 ∧ mi ≤ 59 ∧ s ≤ 59 then
    some ⟨y, m, d, h, mi, s, off⟩
  else none

/-- Characters eaten after a recognized day-of-week name:
`consume_while(|c| c == ',' || c.is_whitespace())`. -/
def isDaySepChar (c : Char) : Bool :=
  c = ',' || isWsChar c

/-- The body of `consume_datetime` after the optional day-of-week prefix:
day of month, month, year (century-expanded), time, timezone, and the final
`chrono` construction.  None of these steps touches the position stack in
the source, so the body is a function of the remaining characters alone;
the outer `none` of the result marks the `chrono` panic on impossible
field values. -/
def consume_datetime_rest (cs : List Char) :
    ParsingResult (Option DateTime) × List Char :=
  match consume_u32 cs with
  | (none, r) => (.error "Expected day of month, a number.", r)
  | (some day_of_month, r1) =>
    let r2 := consume_linear_whitespace r1
    match consume_month r2 with
    | (.error e, r3) => (.error e, r3)
    | (.ok month, r3) =>
      let r4 := consume_linear_whitespace r3
      match consume_u32 r4 with
      | (none, r5) => (.error "Expected year.", r5)
      | (some i, r5) =>
        let year := yearExpand i
        let r6 := consume_linear_whitespace r5
        match consume_time r6 with
        | (.error e, r7) => (.error e, r7)
        | (.ok (hour, minute, second), r7) =>
          let r8 := consume_linear_whitespace r7
          match consume_timezone_offset r8 with
          | (.error e, r9) => (.error e, r9)
          | (.ok tz_offset, r9) =>
            (.ok (fixed_east_ymd_hms tz_offset (toI32 year) month day_of_month
                    hour minute second), r9)

/-- `Rfc822DateParser::consume_datetime`, from a fresh parser on `input`:
push a checkpoint, read a word; if it is a day-of-week name, eat the comma
and whitespace after it (the checkpoint is left on the stack — the source
has no pop on this path); otherwise pop back to the checkpoint.  Then run
the rest of the grammar, which never touches the stack. -/
def consume_datetime (input : List Char) :
    ParsingResult (Option DateTime) × Scanner :=
  let sc1 := push_position { rem := input, stack := [] }
  let sc2 : Scanner :=
    match consume_word sc1 with
    | (some day_of_week, scW) =>
      let lower_dow := day_of_week.map Char.toLower
      if DAYS_OF_WEEK.contains lower_dow then
        { scW with rem := scW.rem.dropWhile isDaySepChar }
      else
        pop_position scW
    | (none, scW) => pop_position scW
  match consume_datetime_rest sc2.rem with
  | (res, r) => (res, { rem := r, stack := sc2.stack })

/-- `consume_datetime` on a Lean string. -/
def parseDT (s : String) : ParsingResult (Option DateTime) × Scanner :=
  consume_datetime s.data

/-- Whether the input starts with a word that is a day-of-week name (the
condition under which `consume_datetime` commits the day-of-week prefix). -/
def leadingDayOfWeek (cs : List Char) : Bool :=
  match wordSplit cs with
  | some (w, _) => DAYS_OF_WEEK.contains (w.map Char.toLower)
  | none => false

/-- The embedding reproduces the first vector of the repository's own
`test_time_parse`. -/
theorem repo_test_vector_edt :
    (parseDT "Mon, 20 Jun 1982 10:01:59 EDT").fst =
      .ok (some ⟨1982, 6, 20, 10, 1, 59, -14400⟩) := rfl

/-- The embedding reproduces the doc-comment example of
`consume_datetime`. -/
theorem repo_doc_example_cet :
    (parseDT "Thu, 18 Dec 2014 21:07:22 +0100").fst =
      .ok (some ⟨2014, 12, 18, 21, 7, 22, 3600⟩) := rfl

/-! ## Helper lemmas about character runs and tokens -/

theorem takeWhile_append_ne {p : Char → Bool} {xs ys : List Char}
    (h : xs.dropWhile p ≠ []) : (xs ++ ys).takeWhile p = xs.takeWhile p := by
  rw [List.takeWhile_append, if_neg]
  intro hlen
  exact h (by
    have hx : xs.takeWhile p = xs :=
      (List.takeWhile_prefix p).eq_of_length hlen
    rw [List.dropWhile_eq_nil_iff]
    exact fun x hx' => List.takeWhile_eq_self_iff.mp hx x hx')

theorem dropWhile_append_ne {p : Char → Bool} {xs ys : List Char}
    (h : xs.dropWhile p ≠ []) : (xs ++ ys).dropWhile p = xs.dropWhile p ++ ys := by
  rw [List.dropWhile_append, if_neg]
  simpa [List.isEmpty_iff] using h

theorem takeWhile_append_nil {p : Char → Bool} {xs ys : List Char}
    (h : xs.dropWhile p = []) : (xs ++ ys).takeWhile p = xs ++ ys.takeWhile p := by
  have hall : ∀ x ∈ xs, p x = true := List.dropWhile_eq_nil_iff.mp h
  rw [List.takeWhile_append, if_pos]
  rw [List.takeWhile_eq_self_iff.mpr hall]

theorem dropWhile_append_nil {p : Char → Bool} {xs ys : List Char}
    (h : xs.dropWhile p = []) : (xs ++ ys).dropWhile p = ys.dropWhile p := by
  rw [List.dropWhile_append, if_pos]
  simp [List.isEmpty_iff, h]

theorem takeWhile_head_false {p : Char → Bool} {ys : List Char}
    (h : p (ys.headD ' ') = false) : ys.takeWhile p = [] := by
  cases ys with
  | nil => rfl
  | cons c l => simp only [List.headD_cons] at h; simp [List.takeWhile_cons, h]

theorem dropWhile_head_false {p : Char → Bool} {ys : List Char}
    (h : p (ys.headD ' ') = false) : ys.dropWhile p = ys := by
  cases ys with
  | nil => rfl
  | cons c l => simp only [List.headD_cons] at h; simp [List.dropWhile_cons, h]

/-- Inversion for a successful `wordSplit`. -/
theorem wordSplit_inv {cs w r : List Char} (h : wordSplit cs = some (w, r)) :
    cs ≠ [] ∧ isAtext (cs.headD ' ') = true ∧
      w = cs.takeWhile isAtext ∧ r = cs.dropWhile isAtext := by
  cases cs with
  | nil => simp [wordSplit] at h
  | cons c l =>
    by_cases hc : isAtext c
    · simp only [wordSplit, hc, if_pos, Option.some.injEq, Prod.mk.injEq] at h
      exact ⟨by simp, by simpa using hc, h.1.symm, h.2.symm⟩
    · simp [wordSplit, hc] at h

/-- Appending text does not change a token read strictly before the end of
the input; at the end it does not change it either, provided the appended
text does not begin with an atom character. -/
theorem wordSplit_frame {cs w r t : List Char} (h : wordSplit cs = some (w, r))
    (hc : r ≠ [] ∨ isAtext (t.headD ' ') = false) :
    wordSplit (cs ++ t) = some (w, r ++ t) := by
  obtain ⟨hne, hhead, hw, hr⟩ := wordSplit_inv h
  cases cs with
  | nil => exact absurd rfl hne
  | cons c l =>
    simp only [List.headD_cons] at hhead
    rcases hc with hc | hc
    · have hdne : (c :: l).dropWhile isAtext ≠ [] := by rw [← hr]; exact hc
      show wordSplit ((c :: l) ++ t) = some (w, r ++ t)
      rw [List.cons_append]
      simp only [wordSplit, hhead, if_pos, ← List.cons_append]
      rw [takeWhile_append_ne hdne, dropWhile_append_ne hdne, ← hw, ← hr]
    · by_cases hdne : (c :: l).dropWhile isAtext = []
      · show wordSplit ((c :: l) ++ t) = some (w, r ++ t)
        rw [List.cons_append]
        simp only [wordSplit, hhead, if_pos, ← List.cons_append]
        rw [takeWhile_append_nil hdne, dropWhile_append_nil hdne,
          takeWhile_head_false hc, dropWhile_head_false hc, hr, hdne]
        have : w = c :: l := by
          rw [hw, List.takeWhile_eq_self_iff.mpr (List.dropWhile_eq_nil_iff.mp hdne)]
        rw [this, List.append_nil, List.nil_append]
      · show wordSplit ((c :: l) ++ t) = some (w, r ++ t)
        rw [List.cons_append]
        simp only [wordSplit, hhead, if_pos, ← List.cons_append]
        rw [takeWhile_append_ne hdne, dropWhile_append_ne hdne, ← hw, ← hr]

/-- A run of atom characters followed by a non-atom boundary reads back as
exactly that run. -/
theorem wordSplit_of_atext_prefix {w rest : List Char} (hw : w ≠ [])
    (hall : w.all isAtext = true) (hr : isAtext (rest.headD ' ') = false) :
    wordSplit (w ++ rest) = some (w, rest) := by
  have hdnil : w.dropWhile isAtext = [] :=
    List.dropWhile_eq_nil_iff.mpr (by simpa [List.all_eq_true] using hall)
  cases w with
  | nil => exact absurd rfl hw
  | cons c l =>
    have hc : isAtext c = true := by
      have := List.all_eq_true.mp hall c (by simp)
      simpa using this
    show wordSplit ((c :: l) ++ rest) = some (c :: l, rest)
    rw [List.cons_append]
    simp only [wordSplit, hc, if_pos, ← List.cons_append]
    rw [takeWhile_append_nil hdnil, dropWhile_append_nil hdnil,
      takeWhile_head_false hr, dropWhile_head_false hr, List.append_nil]

/-! ## Inversion lemmas: successful steps start on non-empty input -/

theorem ne_nil_of_dropWhile_ne_nil {p : Char → Bool} {l : List Char}
    (h : l.dropWhile p ≠ []) : l ≠ [] := by
  intro hl; subst hl; exact h rfl

theorem lws_ne_nil {l : List Char} (h : consume_linear_whitespace l ≠ []) :
    l ≠ [] :=
  ne_nil_of_dropWhile_ne_nil h

theorem consume_u32_some_ne_nil {cs r : List Char} {n : Nat}
    (h : consume_u32 cs = (some n, r)) : cs ≠ [] := by
  intro hl; subst hl; simp [consume_u32, wordSplit] at h

theorem consume_month_ok_ne_nil {cs r : List Char} {m : Nat}
    (h : consume_month cs = (.ok m, r)) : cs ≠ [] := by
  intro hl; subst hl; simp [consume_month, wordSplit] at h

theorem consume_time_ok_ne_nil {cs r : List Char} {x : Nat × Nat × Nat}
    (h : consume_time cs = (.ok x, r)) : cs ≠ [] := by
  intro hl; subst hl; simp [consume_time, consume_u32, wordSplit] at h

theorem consume_tz_ok_ne_nil {cs r : List Char} {v : Int}
    (h : consume_timezone_offset cs = (.ok v, r)) : cs ≠ [] := by
  intro hl; subst hl; simp [consume_timezone_offset, wordSplit] at h

theorem isAtext_not_sep {c : Char} (h : isAtext c = true) :
    isDaySepChar c = false := by
  cases hsep : isDaySepChar c
  · rfl
  · exfalso
    have : c = ',' ∨ c = ' ' ∨ c = '\t' ∨ c = '\r' ∨ c = '\n' := by
      simpa [isDaySepChar, isWsChar, or_assoc] using hsep
    rcases this with rfl | rfl | rfl | rfl | rfl <;> exact absurd h (by decide)

theorem isAtext_not_ws {c : Char} (h : isAtext c = true) :
    isWsChar c = false := by
  cases hws : isWsChar c
  · rfl
  · exfalso
    have : c = ' ' ∨ c = '\t' ∨ c = '\r' ∨ c = '\n' := by
      simpa [isWsChar, or_assoc] using hws
    rcases this with rfl | rfl | rfl | rfl <;> exact absurd h (by decide)

/-! ## Frame lemmas: appending text after the consumed region -/

theorem consume_u32_frame_some {cs t r : List Char} {n : Nat}
    (h : consume_u32 cs = (some n, r)) (hr : r ≠ []) :
    consume_u32 (cs ++ t) = (some n, r ++ t) := by
  rcases hws : wordSplit cs with _ | ⟨w, r'⟩ <;> simp only [consume_u32, hws] at h
  · simp at h
  · rcases hp : parseU32 w with _ | m <;> simp only [hp] at h
    · simp at h
    · simp only [Prod.mk.injEq, Option.some.injEq] at h
      obtain ⟨rfl, rfl⟩ := h
      simp only [consume_u32, wordSplit_frame hws (Or.inl hr), hp]

theorem consume_u32_frame_none {cs t r : List Char}
    (h : consume_u32 cs = (none, r)) (hr : r ≠ []) :
    consume_u32 (cs ++ t) = (none, r ++ t) := by
  rcases hws : wordSplit cs with _ | ⟨w, r'⟩ <;> simp only [consume_u32, hws] at h
  · simp only [Prod.mk.injEq] at h
    obtain ⟨-, rfl⟩ := h
    cases cs with
    | nil => exact absurd rfl hr
    | cons c l =>
      have hc : isAtext c = false := by
        by_cases hc : isAtext c
        · simp [wordSplit, hc] at hws
        · simpa using hc
      rw [List.cons_append]
      simp [consume_u32, wordSplit, hc]
  · rcases hp : parseU32 w with _ | m <;> simp only [hp] at h
    · simp only [Prod.mk.injEq] at h
      obtain ⟨-, rfl⟩ := h
      simp only [consume_u32, wordSplit_frame hws (Or.inl hr), hp]
    · simp at h

theorem lws_frame {l t r : List Char} (h : consume_linear_whitespace l = r)
    (hr : r ≠ []) : consume_linear_whitespace (l ++ t) = r ++ t := by
  subst h
  exact dropWhile_append_ne hr

theorem consume_month_frame {cs t r : List Char} {m : Nat}
    (h : consume_month cs = (.ok m, r)) (hr : r ≠ []) :
    consume_month (cs ++ t) = (.ok m, r ++ t) := by
  rcases hws : wordSplit cs with _ | ⟨w, r'⟩ <;> simp only [consume_month, hws] at h
  · simp at h
  · rcases hf : MONTHS.findIdx? (· = w.map Char.toLower) with _ | i <;>
      simp only [hf] at h
    · simp at h
    · simp only [Prod.mk.injEq, Except.ok.injEq] at h
      obtain ⟨rfl, rfl⟩ := h
      simp only [consume_month, wordSplit_frame hws (Or.inl hr), hf]

theorem consume_time_frame {cs t r : List Char} {x : Nat × Nat × Nat}
    (h : consume_time cs = (.ok x, r)) (hr : r ≠ []) :
    consume_time (cs ++ t) = (.ok x, r ++ t) := by
  rcases h1 : consume_u32 cs with ⟨ho, r1⟩
  rcases ho with _ | hour <;> simp only [consume_time, h1] at h
  · simp at h
  · rcases hh : r1.head? with _ | c <;> simp only [hh] at h
    · simp at h
    · by_cases hc : c = ':'
      · subst hc
        simp only [if_true] at h
        obtain ⟨r1', rfl⟩ := List.head?_eq_some_iff.mp hh
        simp only [List.tail_cons] at h
        rcases h2 : consume_u32 r1' with ⟨mo, r3⟩
        rcases mo with _ | minute <;> simp only [h2] at h
        · simp at h
        · rcases h3 : r3.head? with _ | c2 <;> simp only [h3] at h
          · -- no character after the minute: result remaining is r3 = []
            simp only [Prod.mk.injEq, Except.ok.injEq] at h
            obtain ⟨rfl, rfl⟩ := h
            exact absurd (List.head?_eq_none_iff.mp h3) hr
          · by_cases hc2 : c2 = ':'
            · subst hc2
              simp only [if_true] at h
              obtain ⟨r3', rfl⟩ := List.head?_eq_some_iff.mp h3
              simp only [List.tail_cons] at h
              rcases h4 : consume_u32 r3' with ⟨secOpt, r5⟩
              simp only [h4] at h
              simp only [Prod.mk.injEq, Except.ok.injEq] at h
              obtain ⟨rfl, rfl⟩ := h
              have e1 : consume_u32 (cs ++ t) = (some hour, (':' :: r1') ++ t) :=
                consume_u32_frame_some h1 (by simp)
              have e2 : consume_u32 (r1' ++ t) = (some minute, (':' :: r3') ++ t) :=
                consume_u32_frame_some h2 (by simp)
              have e4 : consume_u32 (r3' ++ t) = (secOpt, r5 ++ t) := by
                rcases secOpt with _ | sec
                · exact consume_u32_frame_none h4 hr
                · exact consume_u32_frame_some h4 hr
              simp only [consume_time, e1, List.cons_append, List.head?_cons, if_true,
                List.tail_cons, e2, e4]
            · simp only [if_neg hc2] at h
              simp only [Prod.mk.injEq, Except.ok.injEq] at h
              obtain ⟨rfl, rfl⟩ := h
              obtain ⟨r3', rfl⟩ := List.head?_eq_some_iff.mp h3
              have e1 : consume_u32 (cs ++ t) = (some hour, (':' :: r1') ++ t) :=
                consume_u32_frame_some h1 (by simp)
              have e2 : consume_u32 (r1' ++ t) = (some minute, (c2 :: r3') ++ t) :=
                consume_u32_frame_some h2 (by simp)
              simp only [consume_time, e1, List.cons_append, List.head?_cons, if_true,
                List.tail_cons, e2, if_neg hc2]
      · simp only [if_neg hc] at h
        simp at h

theorem consume_tz_frame {cs t r : List Char} {v : Int}
    (h : consume_timezone_offset cs = (.ok v, r))
    (hc : r ≠ [] ∨ isAtext (t.headD ' ') = false) :
    consume_timezone_offset (cs ++ t) = (.ok v, r ++ t) := by
  rcases hws : wordSplit cs with _ | ⟨w, r'⟩ <;>
    simp only [consume_timezone_offset, hws] at h
  · simp at h
  · rcases hp : parseI32 (stripPlus w) with _ | i <;> simp only [hp] at h
    · rcases hl : TZ_DATA.lookup (String.mk (stripPlus w)) with _ | off <;>
        simp only [hl] at h
      · simp at h
      · simp only [Prod.mk.injEq, Except.ok.injEq] at h
        obtain ⟨rfl, rfl⟩ := h
        simp only [consume_timezone_offset, wordSplit_frame hws hc, hp, hl]
    · simp only [Prod.mk.injEq, Except.ok.injEq] at h
      obtain ⟨rfl, rfl⟩ := h
      simp only [consume_timezone_offset, wordSplit_frame hws hc, hp]

/-- A successful grammar body starts with a day-of-month token that leaves
text behind it. -/
theorem rest_ok_inv {cs r : List Char} {res : Option DateTime}
    (h : consume_datetime_rest cs = (.ok res, r)) :
    ∃ n r1, consume_u32 cs = (some n, r1) ∧ r1 ≠ [] := by
  rcases h1 : consume_u32 cs with ⟨ho, r1⟩
  rcases ho with _ | day <;> simp only [consume_datetime_rest, h1] at h
  · simp at h
  · refine ⟨day, r1, rfl, ?_⟩
    intro hnil
    subst hnil
    simp [consume_linear_whitespace, consume_month, wordSplit] at h

/-- Frame lemma for the whole grammar body: text appended after a
successfully parsed region neither disturbs the parse nor is consumed,
provided it does not extend the final token. -/
theorem consume_datetime_rest_frame {cs t r : List Char} {res : Option DateTime}
    (h : consume_datetime_rest cs = (.ok res, r))
    (hct : isAtext (t.headD ' ') = false) :
    consume_datetime_rest (cs ++ t) = (.ok res, r ++ t) := by
  rcases h1 : consume_u32 cs with ⟨ho, r1⟩
  rcases ho with _ | day <;> simp only [consume_datetime_rest, h1] at h
  · simp at h
  · rcases h2 : consume_month (consume_linear_whitespace r1) with ⟨mo, r3⟩
    rcases mo with e | m <;> simp only [h2] at h
    · simp at h
    · rcases h3 : consume_u32 (consume_linear_whitespace r3) with ⟨yo, r5⟩
      rcases yo with _ | i <;> simp only [h3] at h
      · simp at h
      · rcases h4 : consume_time (consume_linear_whitespace r5) with ⟨tr, r7⟩
        rcases tr with e | hms <;> simp only [h4] at h
        · simp at h
        · obtain ⟨hh, mm, ss⟩ := hms
          rcases h5 : consume_timezone_offset (consume_linear_whitespace r7) with ⟨zo, r9⟩
          rcases zo with e | tz <;> simp only [h5] at h
          · simp at h
          · simp only [Prod.mk.injEq, Except.ok.injEq] at h
            obtain ⟨rfl, rfl⟩ := h
            have hr8 : consume_linear_whitespace r7 ≠ [] := consume_tz_ok_ne_nil h5
            have hr7 : r7 ≠ [] := lws_ne_nil hr8
            have hr6 : consume_linear_whitespace r5 ≠ [] := consume_time_ok_ne_nil h4
            have hr5 : r5 ≠ [] := lws_ne_nil hr6
            have hr4 : consume_linear_whitespace r3 ≠ [] := consume_u32_some_ne_nil h3
            have hr3 : r3 ≠ [] := lws_ne_nil hr4
            have hr2 : consume_linear_whitespace r1 ≠ [] := consume_month_ok_ne_nil h2
            have hr1 : r1 ≠ [] := lws_ne_nil hr2
            have e1 := consume_u32_frame_some (t := t) h1 hr1
            have e2 := lws_frame (l := r1) (t := t) rfl hr2
            have e3 := consume_month_frame (t := t) h2 hr3
            have e4 := lws_frame (l := r3) (t := t) rfl hr4
            have e5 := consume_u32_frame_some (t := t) h3 hr5
            have e6 := lws_frame (l := r5) (t := t) rfl hr6
            have e7 := consume_time_frame (t := t) h4 hr7
            have e8 := lws_frame (l := r7) (t := t) rfl hr8
            have e9 := consume_tz_frame h5 (Or.inr hct)
            simp only [consume_datetime_rest, e1, e2, e3, e4, e5, e6, e7, e8, e9]

/-- The day-of-month step agrees with the token the day-of-week probe saw. -/
theorem consume_u32_of_wordSplit {cs w rp r1 : List Char} {n : Nat}
    (hws : wordSplit cs = some (w, rp))
    (h : consume_u32 cs = (some n, r1)) : r1 = rp := by
  simp only [consume_u32, hws] at h
  rcases hp : parseU32 w with _ | m <;> simp only [hp] at h
  · simp at h
  · simp only [Prod.mk.injEq, Option.some.injEq] at h
    exact h.2.symm

/-- `wrap32` is the identity exactly on the `i32` range: a 32-bit
operation whose mathematical value lies in the range does not overflow. -/
theorem wrap32_eq_self {x : Int} (h1 : -2 ^ 31 ≤ x) (h2 : x ≤ 2 ^ 31 - 1) :
    wrap32 x = x := by
  unfold wrap32
  omega

/-- The numeric branch of timezone resolution: a token whose `+`-stripped
text parses as an `i32` is always accepted, and converted digit-group-wise
with Rust's truncating `/` and `%` in 32-bit arithmetic. -/
theorem tz_numeric {cs w r : List Char} {v : Int}
    (hws : wordSplit cs = some (w, r)) (hp : parseI32 (stripPlus w) = some v) :
    consume_timezone_offset cs =
      (.ok (wrap32 (wrap32 (Int.tdiv v 100 * 3600) + wrap32 (Int.tmod v 100 * 60))), r) := by
  simp only [consume_timezone_offset, hws, hp]

/-- The numeric branch on the overflow-free range: when each of the three
32-bit operations stays within the `i32` range, the offset is exactly the
mathematical digit-group value (and debug and release builds agree). -/
theorem tz_numeric_in_range {cs w r : List Char} {v : Int}
    (hws : wordSplit cs = some (w, r)) (hp : parseI32 (stripPlus w) = some v)
    (hh : -2 ^ 31 ≤ Int.tdiv v 100 * 3600 ∧ Int.tdiv v 100 * 3600 ≤ 2 ^ 31 - 1)
    (hm : -2 ^ 31 ≤ Int.tmod v 100 * 60 ∧ Int.tmod v 100 * 60 ≤ 2 ^ 31 - 1)
    (hs : -2 ^ 31 ≤ Int.tdiv v 100 * 3600 + Int.tmod v 100 * 60 ∧
      Int.tdiv v 100 * 3600 + Int.tmod v 100 * 60 ≤ 2 ^ 31 - 1) :
    consume_timezone_offset cs =
      (.ok (Int.tdiv v 100 * 3600 + Int.tmod v 100 * 60), r) := by
  rw [tz_numeric hws hp, wrap32_eq_self hh.1 hh.2, wrap32_eq_self hm.1 hm.2,
    wrap32_eq_self hs.1 hs.2]

/-! ## Claims -/

/-- **C1, counterexample.**  The claim says that when every grammar step
succeeds but the numeric fields are not a real calendar date, the call
returns an error result rather than terminating abnormally.  On
`"31 Jun 2000 10:00:00 GMT"` every grammar step succeeds (day 31, month
June, year 2000, valid time and zone), but June has 30 days, so
`.ymd(2000, 6, 31)` panics inside `chrono`; the parse ends in the
modelled panic (`Except.ok none`), not in an `Except.error`. -/
theorem claim_C1_counterexample :
    (parseDT "31 Jun 2000 10:00:00 GMT").fst = .ok none := rfl

/-- **C1, amended.**  `consume_datetime` is total and every call ends in
one of exactly three ways: a date-time value, a grammar error carried as an
explicit `Except.error`, or — when every grammar step succeeds but the
fields do not form a real date or time — a panic of the underlying `chrono`
constructors (modelled `Except.ok none`), i.e. abnormal termination rather
than an error result. -/
theorem claim_C1_amended :
    (∀ cs : List Char,
      (∃ dt, (consume_datetime cs).fst = .ok (some dt)) ∨
      (consume_datetime cs).fst = .ok none ∨
      (∃ e, (consume_datetime cs).fst = .error e)) ∧
    (parseDT "Mon, 20 Jun 1982 10:01:59 EDT").fst =
      .ok (some ⟨1982, 6, 20, 10, 1, 59, -14400⟩) ∧
    (parseDT "Mon, Jun 1982 10:01:59 EDT").fst =
      .error "Expected day of month, a number." ∧
    (parseDT "31 Jun 2000 10:00:00 GMT").fst = .ok none := by
  refine ⟨?_, rfl, rfl, rfl⟩
  intro cs
  rcases h : (consume_datetime cs).fst with e | o
  · exact Or.inr (Or.inr ⟨e, rfl⟩)
  · rcases o with _ | dt
    · exact Or.inr (Or.inl rfl)
    · exact Or.inl ⟨dt, rfl⟩

/-- **C2, counterexample.**  The claim says the table lookup uses the
original, unstripped token.  The token `+EDT` is not a key of `TZ_DATA`,
so that lookup would miss and fail; the code instead looks up the
`+`-stripped text and succeeds with `EDT`'s offset. -/
theorem claim_C2_counterexample :
    (consume_timezone_offset ("+EDT").data).fst = .ok (-14400) ∧
    TZ_DATA.lookup "+EDT" = none := ⟨rfl, rfl⟩

/-- **C2, amended.**  For a timezone token whose `+`-stripped text does not
parse as a signed decimal integer, the code performs a case-sensitive
lookup of the *stripped* token against the static table with exactly the
keys Z, UT, GMT, PST, PDT, MST, MDT, CST, CDT, EST, EDT; a hit returns the
key's offset in seconds (EDT gives -14400) and a miss is a hard failure
whose error names the stripped zone text. -/
theorem claim_C2_amended :
    TZ_DATA.map Prod.fst =
      ["Z", "UT", "GMT", "PST", "PDT", "MST", "MDT", "CST", "CDT", "EST", "EDT"] ∧
    TZ_DATA.lookup "EDT" = some (-14400) ∧
    (∀ cs w r, wordSplit cs = some (w, r) → parseI32 (stripPlus w) = none →
      consume_timezone_offset cs =
        ((match TZ_DATA.lookup (String.mk (stripPlus w)) with
          | some offset => .ok offset
          | none => .error ("Invalid timezone: " ++ String.mk (stripPlus w))), r)) := by
  refine ⟨rfl, rfl, ?_⟩
  intro cs w r hws hp
  simp only [consume_timezone_offset, hws, hp]
  rcases hl : TZ_DATA.lookup (String.mk (stripPlus w)) with _ | off <;> simp only [hl]

/-- Witness for C2: instantiating the amended theorem on the token `XYZ`
(table miss) produces the hard failure naming `XYZ`. -/
theorem claim_C2_witness :
    consume_timezone_offset ("XYZ").data = (.error ("Invalid timezone: XYZ"), []) :=
  claim_C2_amended.2.2 ("XYZ").data ("XYZ").data [] rfl rfl

/-- **C3, counterexample.**  The claim says the position stack is empty
again whenever a top-level `consume_datetime` returns.  On an input with a
valid day-of-week prefix the checkpoint pushed at the start is never popped
nor discarded: the parse succeeds, yet the stack still holds the entry. -/
theorem claim_C3_counterexample :
    (parseDT "Mon, 20 Jun 1982 10:01:59 EDT").fst =
      .ok (some ⟨1982, 6, 20, 10, 1, 59, -14400⟩) ∧
    (parseDT "Mon, 20 Jun 1982 10:01:59 EDT").snd.stack =
      ["Mon, 20 Jun 1982 10:01:59 EDT".data] := ⟨rfl, rfl⟩

/-- **C3, amended.**  Exactly one `push_position` runs, at the start.  On
the two non-matching paths (no word, or a word that is not a day name) it
is matched by exactly one `pop_position`, so the stack is empty when the
call returns; on the path where the input begins with a valid day-of-week
name the checkpoint is never discarded — the stack still holds that one
entry when the call returns, successful or not. -/
theorem claim_C3_amended : ∀ cs : List Char,
    (consume_datetime cs).snd.stack = if leadingDayOfWeek cs then [cs] else [] := by
  intro cs
  rcases hws : wordSplit cs with _ | ⟨w, rp⟩
  · rcases hrest : consume_datetime_rest cs with ⟨res0, r0⟩
    simp [consume_datetime, push_position, consume_word, pop_position,
      leadingDayOfWeek, hws, hrest]
  · by_cases hd : DAYS_OF_WEEK.contains (w.map Char.toLower)
    · have hd2 : (w.map Char.toLower) ∈ DAYS_OF_WEEK := by simpa using hd
      rcases hrest : consume_datetime_rest (rp.dropWhile isDaySepChar) with ⟨res0, r0⟩
      simp [consume_datetime, push_position, consume_word, pop_position,
        leadingDayOfWeek, hws, hd, hd2, hrest]
    · have hd2 : ¬((w.map Char.toLower) ∈ DAYS_OF_WEEK) := by simpa using hd
      rcases hrest : consume_datetime_rest cs with ⟨res0, r0⟩
      simp [consume_datetime, push_position, consume_word, pop_position,
        leadingDayOfWeek, hws, hd, hd2, hrest]

/-- **C4, counterexample.**  The claim says the year token `999` yields the
absolute year 1999.  The code adds 1900 to every value in `50..=999`, so
`999` yields 2899 (and the end-to-end parse builds year 2899). -/
theorem claim_C4_counterexample :
    (parseDT "01 Jan 999 00:00:00 GMT").fst = .ok (some ⟨2899, 1, 1, 0, 0, 0, 0⟩) ∧
    yearExpand 999 = 2899 := ⟨rfl, rfl⟩

/-- **C4, amended.**  The absolute year used to build the result is exactly
`v + 2000` for `0 ≤ v ≤ 49`, `v + 1900` for `50 ≤ v ≤ 999`, and `v`
unchanged for `v ≥ 1000` — so 49 yields 2049, 50 yields 1950, 999 yields
2899 (not 1999), and 1000 yields 1000, with the splits exactly at 49/50
and 999/1000. -/
theorem claim_C4_amended :
    (∀ v, v ≤ 49 → yearExpand v = v + 2000) ∧
    (∀ v, 50 ≤ v → v ≤ 999 → yearExpand v = v + 1900) ∧
    (∀ v, 1000 ≤ v → yearExpand v = v) ∧
    (parseDT "01 Jan 49 00:00:00 GMT").fst = .ok (some ⟨2049, 1, 1, 0, 0, 0, 0⟩) ∧
    (parseDT "01 Jan 50 00:00:00 GMT").fst = .ok (some ⟨1950, 1, 1, 0, 0, 0, 0⟩) ∧
    (parseDT "01 Jan 999 00:00:00 GMT").fst = .ok (some ⟨2899, 1, 1, 0, 0, 0, 0⟩) ∧
    (parseDT "01 Jan 1000 00:00:00 GMT").fst = .ok (some ⟨1000, 1, 1, 0, 0, 0, 0⟩) := by
  refine ⟨?_, ?_, ?_, rfl, rfl, rfl, rfl⟩
  · intro v hv; rw [yearExpand, if_pos hv]
  · intro v hv1 hv2; rw [yearExpand, if_neg (by omega), if_pos hv2]
  · intro v hv; rw [yearExpand, if_neg (by omega), if_neg (by omega)]

/-- Witness for C4: the middle range applied at the year token 82. -/
theorem claim_C4_witness : yearExpand 82 = 1982 :=
  claim_C4_amended.2.1 82 (by decide) (by decide)

/-- **C5, counterexample.**  The claim asserts the digit-group formula for
*every* token that parses as a signed decimal integer.  The token
`2000000000` parses as an `i32`; the formula value
`(2000000000 / 100) * 3600 + (2000000000 % 100) * 60 = 72000000000`
exceeds the `i32` range, so the source — whose return type is
`ParsingResult<i32>` — cannot return it: the multiplication overflows
(release builds wrap to -1014444032, the value of the model; debug builds
panic).  Either way the claimed formula value is not produced. -/
theorem claim_C5_counterexample :
    (consume_timezone_offset ("2000000000").data).fst = .ok (-1014444032) ∧
    Int.tdiv 2000000000 100 * 3600 + Int.tmod 2000000000 100 * 60 = 72000000000 ∧
    (2 ^ 31 - 1 : Int) < 72000000000 := ⟨rfl, by decide, by decide⟩

/-- **C5, amended.**  A timezone token that (after stripping one leading
`+`) parses as a signed decimal integer `v` resolves to
`(v / 100) * 3600 + (v % 100) * 60` seconds with truncating division —
digit groups, not decimal arithmetic — whenever each of the three 32-bit
operations `(v/100)*3600`, `(v%100)*60` and their sum stays within the
`i32` range; so `+0545` yields exactly +20700 seconds (5h45m), not 5.45
hours.  (Outside that range the 32-bit arithmetic overflows: debug builds
panic and release builds wrap.) -/
theorem claim_C5_amended :
    (∀ cs w r v, wordSplit cs = some (w, r) → parseI32 (stripPlus w) = some v →
      (-2 ^ 31 ≤ Int.tdiv v 100 * 3600 ∧ Int.tdiv v 100 * 3600 ≤ 2 ^ 31 - 1) →
      (-2 ^ 31 ≤ Int.tmod v 100 * 60 ∧ Int.tmod v 100 * 60 ≤ 2 ^ 31 - 1) →
      (-2 ^ 31 ≤ Int.tdiv v 100 * 3600 + Int.tmod v 100 * 60 ∧
        Int.tdiv v 100 * 3600 + Int.tmod v 100 * 60 ≤ 2 ^ 31 - 1) →
      consume_timezone_offset cs =
        (.ok (Int.tdiv v 100 * 3600 + Int.tmod v 100 * 60), r)) ∧
    consume_timezone_offset ("+0545").data = (.ok 20700, []) ∧
    (20700 : Int) = 5 * 3600 + 45 * 60 := by
  refine ⟨fun cs w r v hws hp hh hm hs => tz_numeric_in_range hws hp hh hm hs,
    rfl, by norm_num⟩

/-- Witness for C5: the general digit-group rule applied to `+0545`, whose
intermediate values all fit in `i32`. -/
theorem claim_C5_witness :
    consume_timezone_offset ("+0545").data =
      (.ok (Int.tdiv 545 100 * 3600 + Int.tmod 545 100 * 60), []) :=
  claim_C5_amended.1 ("+0545").data ("+0545").data [] 545 rfl rfl
    (by decide) (by decide) (by decide)

/-- **C6, counterexample.**  The claim says
`"Mon, 20 Jun 1982 1001:59 EDT"` fails with a structural
separator-mismatch error.  It does not fail with any error: the token
`1001` is read as the hour and `59` as the minute (the `:` between them is
present and consumed), the grammar succeeds, and the `chrono` construction
then panics on hour 1001 (modelled `Except.ok none`). -/
theorem claim_C6_counterexample :
    (parseDT "Mon, 20 Jun 1982 1001:59 EDT").fst = .ok none := rfl

/-- **C6, amended.**  Malformed inputs fail at the step being recognized:
`"Mon, Jun 1982 10:01:59 EDT"` fails with the day-of-month error.  In
`"Mon, 20 Jun 1982 1001:59 EDT"` the grammar itself succeeds (hour 1001,
minute 59), and the failure is the abnormal termination of the
construction, not a separator error; a genuinely missing `:` after the
hour is a structural failure, and a missing hour or minute token is a hard
failure naming the missing field. -/
theorem claim_C6_amended :
    (parseDT "Mon, Jun 1982 10:01:59 EDT").fst =
      .error "Expected day of month, a number." ∧
    (parseDT "Mon, 20 Jun 1982 1001:59 EDT").fst = .ok none ∧
    consume_time ("10 01".data) = (.error "Expected character :", (" 01").data) ∧
    consume_time [] = (.error "Failed to parse time: Expected hour, a number.", []) ∧
    consume_time ("10:".data) = (.error "Failed to parse time: Expected minute.", []) :=
  ⟨rfl, rfl, rfl, rfl, rfl⟩

/-- **C8.**  Seconds are optional: when no `:` follows the minute,
`consume_time` succeeds with second 0 (`"Mon, 20 Jun 1982 10:01 EDT"`
parses with second 0), and when a `:` does follow the minute it is
consumed and the seconds value is read. -/
theorem claim_C8 :
    (parseDT "Mon, 20 Jun 1982 10:01 EDT").fst =
      .ok (some ⟨1982, 6, 20, 10, 1, 0, -14400⟩) ∧
    (∀ cs h r1 m r3, consume_u32 cs = (some h, r1) → r1.head? = some ':' →
      consume_u32 r1.tail = (some m, r3) → r3.head? ≠ some ':' →
      consume_time cs = (.ok (h, m, 0), r3)) ∧
    (∀ cs h r1 m r3 sec r5, consume_u32 cs = (some h, r1) → r1.head? = some ':' →
      consume_u32 r1.tail = (some m, r3) → r3.head? = some ':' →
      consume_u32 r3.tail = (some sec, r5) →
      consume_time cs = (.ok (h, m, sec), r5)) := by
  refine ⟨rfl, ?_, ?_⟩
  · intro cs h r1 m r3 h1 hh h2 h3
    rcases hc : r3.head? with _ | c2
    · simp only [consume_time, h1, hh, if_true, h2, hc]
    · have hne : ¬(c2 = ':') := fun hcc => h3 (hcc ▸ hc)
      simp only [consume_time, h1, hh, if_true, h2, hc, if_neg hne]
  · intro cs h r1 m r3 sec r5 h1 hh h2 h3 h4
    simp only [consume_time, h1, hh, if_true, h2, h3, h4, Option.getD_some]

/-- Witness for C8: the no-seconds branch applied to `10:01 EDT`. -/
theorem claim_C8_witness :
    consume_time ("10:01 EDT".data) = (.ok (10, 1, 0), (" EDT").data) :=
  claim_C8.2.1 ("10:01 EDT".data) 10 ((":01 EDT").data) 1 ((" EDT").data)
    rfl rfl rfl (by decide)

/-- **C9, counterexample.**  The claim says the token `12345` yields
444300 seconds.  123 hours and 45 minutes are 445500 seconds, and that is
what the code computes. -/
theorem claim_C9_counterexample :
    (consume_timezone_offset ("12345").data).fst = .ok 445500 ∧
    (445500 : Int) ≠ 444300 := ⟨rfl, by norm_num⟩

/-- **C9, amended.**  Any token parsing as a signed 32-bit decimal integer
after stripping at most one leading `+` is accepted as a numeric timezone
regardless of digit count, sign placement, or HHMM shape, and converted
with truncating division and remainder by 100 in 32-bit arithmetic: `0`
yields 0 seconds, `-5` yields -300 seconds, and `12345` yields 445500
seconds (123h45m, not 444300).  No explicit bound is checked on the
resulting offset at this layer (445500 exceeds a day's worth of seconds
and is still returned as a success), but the conversion is `i32`
arithmetic, so the mathematical formula value is only produced while its
intermediates fit in `i32`: `2000000000` overflows the multiplication
(debug panic; release wrap to -1014444032). -/
theorem claim_C9_amended :
    (∀ cs w r v, wordSplit cs = some (w, r) → parseI32 (stripPlus w) = some v →
      consume_timezone_offset cs =
        (.ok (wrap32 (wrap32 (Int.tdiv v 100 * 3600) + wrap32 (Int.tmod v 100 * 60))), r)) ∧
    (∀ cs w r v, wordSplit cs = some (w, r) → parseI32 (stripPlus w) = some v →
      (-2 ^ 31 ≤ Int.tdiv v 100 * 3600 ∧ Int.tdiv v 100 * 3600 ≤ 2 ^ 31 - 1) →
      (-2 ^ 31 ≤ Int.tmod v 100 * 60 ∧ Int.tmod v 100 * 60 ≤ 2 ^ 31 - 1) →
      (-2 ^ 31 ≤ Int.tdiv v 100 * 3600 + Int.tmod v 100 * 60 ∧
        Int.tdiv v 100 * 3600 + Int.tmod v 100 * 60 ≤ 2 ^ 31 - 1) →
      consume_timezone_offset cs =
        (.ok (Int.tdiv v 100 * 3600 + Int.tmod v 100 * 60), r)) ∧
    (consume_timezone_offset ("0").data).fst = .ok 0 ∧
    (consume_timezone_offset ("-5").data).fst = .ok (-300) ∧
    (consume_timezone_offset ("12345").data).fst = .ok 445500 ∧
    (86400 : Int) < 445500 ∧
    (consume_timezone_offset ("2000000000").data).fst = .ok (-1014444032) := by
  refine ⟨fun cs w r v hws hp => tz_numeric hws hp,
    fun cs w r v hws hp hh hm hs => tz_numeric_in_range hws hp hh hm hs,
    rfl, rfl, rfl, by norm_num, rfl⟩

/-- Witness for C9: the general rule applied to the negative token `-5`
(the wrapped intermediates all lie in range, so the value is -300). -/
theorem claim_C9_witness :
    consume_timezone_offset ("-5").data = (.ok (-300), []) :=
  claim_C9_amended.1 ("-5").data ("-5").data [] (-5) rfl rfl

/-- **C7, counterexample.**  The claim quantifies over *every* valid
date-time string.  `"Mon, 09 Jan 2012 21:20:00 +0000"` is itself a valid
date-time string, but prefixing it with a valid day name and comma makes
the parse fail (only one day-of-week prefix is consumed, and the second
`Mon` is then rejected as a day-of-month), so the result is not identical. -/
theorem claim_C7_counterexample :
    (parseDT "Mon, 09 Jan 2012 21:20:00 +0000").fst =
      .ok (some ⟨2012, 1, 9, 21, 20, 0, 0⟩) ∧
    (parseDT ("Mon" ++ ", " ++ "Mon, 09 Jan 2012 21:20:00 +0000")).fst =
      .error "Expected day of month, a number." := ⟨rfl, rfl⟩

/-- **C7, amended.**  For every valid date-time string that does not itself
begin with a day-of-week name, prefixing it with any valid day name and a
comma yields an identical parsed result; in particular the day name is
arbitrary — it is never cross-validated against the calendar day computed
from the date fields. -/
theorem claim_C7_amended {d : String} {s : List Char} {v : Option DateTime}
    (hd : d ∈ (["Mon", "Tue", "Wed", "Thu", "Fri", "Sat", "Sun"] : List String))
    (hnd : leadingDayOfWeek s = false)
    (hok : (consume_datetime s).fst = .ok v) :
    (consume_datetime (d.data ++ (", ").data ++ s)).fst = .ok v := by
  rcases hws : wordSplit s with _ | ⟨w0, r0⟩
  · exfalso
    rcases hrest : consume_datetime_rest s with ⟨res0, rr⟩
    have hok' : res0 = .ok v := by
      simpa [consume_datetime, push_position, consume_word, pop_position,
        hws, hrest] using hok
    obtain ⟨n, r1, hu, -⟩ := rest_ok_inv (hok' ▸ hrest)
    simp [consume_u32, hws] at hu
  · have hcont : DAYS_OF_WEEK.contains (w0.map Char.toLower) = false := by
      simpa [leadingDayOfWeek, hws] using hnd
    have hcont2 : ¬((w0.map Char.toLower) ∈ DAYS_OF_WEEK) := by simpa using hcont
    rcases hrest : consume_datetime_rest s with ⟨res0, rr⟩
    have hok' : res0 = .ok v := by
      simpa [consume_datetime, push_position, consume_word, pop_position,
        hws, hcont, hcont2, hrest] using hok
    obtain ⟨hne, hhead, -, -⟩ := wordSplit_inv hws
    have hdprops : d.data ≠ [] ∧ d.data.all isAtext = true ∧
        DAYS_OF_WEEK.contains (d.data.map Char.toLower) = true := by
      fin_cases hd <;> exact ⟨by decide, by decide, by decide⟩
    have e0 : wordSplit (d.data ++ (',' :: ' ' :: s)) = some (d.data, ',' :: ' ' :: s) :=
      wordSplit_of_atext_prefix hdprops.1 hdprops.2.1
        (by simp only [List.headD_cons]; decide)
    have ed : (',' :: ' ' :: s).dropWhile isDaySepChar = s := by
      rw [List.dropWhile_cons, if_pos (by decide), List.dropWhile_cons,
        if_pos (by decide)]
      exact dropWhile_head_false (isAtext_not_sep hhead)
    have hdmem : (d.data.map Char.toLower) ∈ DAYS_OF_WEEK := by
      simpa using hdprops.2.2
    rw [List.append_assoc]
    show (consume_datetime (d.data ++ (',' :: ' ' :: s))).fst = .ok v
    simp [consume_datetime, push_position, consume_word, e0, hdprops.2.2, hdmem,
      ed, hrest, hok']

/-- Witness for C7: stripping the day from
`"Mon, 09 Jan 2012 21:20:00 +0000"` changes nothing. -/
theorem claim_C7_witness :
    (parseDT "Mon, 09 Jan 2012 21:20:00 +0000").fst =
      .ok (some ⟨2012, 1, 9, 21, 20, 0, 0⟩) :=
  @claim_C7_amended "Mon" ("09 Jan 2012 21:20:00 +0000").data
    (some ⟨2012, 1, 9, 21, 20, 0, 0⟩) (by decide) rfl rfl

/-- **C10.**  `consume_datetime` consumes input only through the timezone
token: a successful parse does not require reaching end-of-input; any text
after the timezone word (text starting at a non-atom character, so that it
is not part of that word) is left unconsumed in the Scanner and has no
effect on the returned date-time value. -/
theorem claim_C10 {s t : List Char} {res : Option DateTime} {sc : Scanner}
    (h : consume_datetime s = (.ok res, sc))
    (ht : isAtext (t.headD ' ') = false) :
    consume_datetime (s ++ t) =
      (.ok res, { rem := sc.rem ++ t, stack := sc.stack.map (· ++ t) }) := by
  rcases sc with ⟨r, st⟩
  rcases hws : wordSplit s with _ | ⟨w, rp⟩
  · exfalso
    rcases hrest : consume_datetime_rest s with ⟨res0, r0⟩
    have hok' : res0 = .ok res := by
      have := congrArg Prod.fst h
      simpa [consume_datetime, push_position, consume_word, pop_position,
        hws, hrest] using this
    obtain ⟨n, r1, hu, -⟩ := rest_ok_inv (hok' ▸ hrest)
    simp [consume_u32, hws] at hu
  · by_cases hd : DAYS_OF_WEEK.contains (w.map Char.toLower)
    · have hd2 : (w.map Char.toLower) ∈ DAYS_OF_WEEK := by simpa using hd
      rcases hrest : consume_datetime_rest (rp.dropWhile isDaySepChar) with ⟨res0, r0⟩
      have hcomp : (res0, (⟨r0, [s]⟩ : Scanner)) = (.ok res, (⟨r, st⟩ : Scanner)) := by
        rw [← h]
        simp [consume_datetime, push_position, consume_word, hws, hd, hd2, hrest]
      simp only [Prod.mk.injEq, Scanner.mk.injEq] at hcomp
      obtain ⟨rfl, rfl, rfl⟩ := hcomp
      obtain ⟨n, r1', hu, -⟩ := rest_ok_inv hrest
      have hrem0 : rp.dropWhile isDaySepChar ≠ [] := by
        intro hnil
        rw [hnil] at hu
        simp [consume_u32, wordSplit] at hu
      have hrp : rp ≠ [] := ne_nil_of_dropWhile_ne_nil hrem0
      have e0 : wordSplit (s ++ t) = some (w, rp ++ t) :=
        wordSplit_frame hws (Or.inl hrp)
      have ed : (rp ++ t).dropWhile isDaySepChar = rp.dropWhile isDaySepChar ++ t :=
        dropWhile_append_ne hrem0
      have er := consume_datetime_rest_frame hrest ht
      simp [consume_datetime, push_position, consume_word, e0, hd, hd2, ed, er]
    · have hd2 : ¬((w.map Char.toLower) ∈ DAYS_OF_WEEK) := by simpa using hd
      rcases hrest : consume_datetime_rest s with ⟨res0, r0⟩
      have hcomp : (res0, (⟨r0, []⟩ : Scanner)) = (.ok res, (⟨r, st⟩ : Scanner)) := by
        rw [← h]
        simp [consume_datetime, push_position, consume_word, pop_position,
          hws, hd, hd2, hrest]
      simp only [Prod.mk.injEq, Scanner.mk.injEq] at hcomp
      obtain ⟨rfl, rfl, rfl⟩ := hcomp
      obtain ⟨n, r1', hu, hr1'⟩ := rest_ok_inv hrest
      have hrp : rp ≠ [] := by
        have := consume_u32_of_wordSplit hws hu
        rw [← this]
        exact hr1'
      have e0 : wordSplit (s ++ t) = some (w, rp ++ t) :=
        wordSplit_frame hws (Or.inl hrp)
      have er := consume_datetime_rest_frame hrest ht
      simp [consume_datetime, push_position, consume_word, pop_position,
        e0, hd, hd2, er]

/-- Witness for C10: appending `" further text"` to a complete date-time
string leaves it unconsumed and the value unchanged. -/
theorem claim_C10_witness :
    consume_datetime (("20 Jun 1982 10:01:59 EDT").data ++ (" further text").data) =
      (.ok (some ⟨1982, 6, 20, 10, 1, 59, -14400⟩),
        { rem := (" further text").data, stack := [] }) :=
  @claim_C10 ("20 Jun 1982 10:01:59 EDT").data ((" further text").data)
    (some ⟨1982, 6, 20, 10, 1, 59, -14400⟩) ⟨[], []⟩ rfl (by decide)

end RustEmail
